import Mathlib

/-!
# ws-proxy: an HTTP CONNECT proxy that tunnels TCP over a websocket relay

A shallow embedding of `main.go`.  The network is not executed: every call on a
connection takes its result from a script supplied by the environment (the successive
results of `conn.Read`, of `ws.NextReader`, of the relay dial, ...), and every function
returns the trace of the effects it performed together with the way it ended.  The two
loops of `PipeConn` are embedded one by one, each as the sequence of its own calls; their
interleaving is embedded separately, as a step function driven by a schedule.
-/

namespace WsProxy

/-! ## Flags (main.go lines 21-27) -/

/-- One octet of relayed payload. -/
abbrev Byte := Fin 256

/-- The command-line flags `port`, `pwd`, `wss`, `chunk` and `debug`. -/
structure Flags where
  port : Int
  passwd : String
  wssHost : String
  ckSize : Int
  debug : Bool
deriving DecidableEq, Repr

/-- Length of the buffer `make([]byte, *ckSize*1024)` (line 40). -/
def bufLen (f : Flags) : Nat := (f.ckSize * 1024).toNat

/-! ## Startup validation in main (lines 155-201) -/

/-- Regular expressions over characters, with the operators the pattern of line 158 uses. -/
inductive Regex
  /-- matches no string -/
  | never
  /-- matches the empty string -/
  | eps
  /-- matches one character of a class -/
  | cls (p : Char → Bool)
  /-- alternation -/
  | alt (a b : Regex)
  /-- concatenation -/
  | seq (a b : Regex)
  /-- zero or more repetitions -/
  | star (a : Regex)

/-- Whether the expression matches the empty string. -/
def Regex.nullable : Regex → Bool
  | Regex.never => false
  | Regex.eps => true
  | Regex.cls _ => false
  | Regex.alt a b => a.nullable || b.nullable
  | Regex.seq a b => a.nullable && b.nullable
  | Regex.star _ => true

/-- The derivative of an expression by one character. -/
def Regex.deriv : Regex → Char → Regex
  | Regex.never, _ => Regex.never
  | Regex.eps, _ => Regex.never
  | Regex.cls p, c => if p c then Regex.eps else Regex.never
  | Regex.alt a b, c => Regex.alt (a.deriv c) (b.deriv c)
  | Regex.seq a b, c =>
    if a.nullable then Regex.alt (Regex.seq (a.deriv c) b) (b.deriv c)
    else Regex.seq (a.deriv c) b
  | Regex.star a, c => Regex.seq (a.deriv c) (Regex.star a)

/-- Whether the whole text matches the expression. -/
def Regex.fullMatch : Regex → List Char → Bool
  | r, [] => r.nullable
  | r, c :: cs => (r.deriv c).fullMatch cs

/-- One or more repetitions: the operator `+`. -/
def Regex.plus (r : Regex) : Regex := Regex.seq r (Regex.star r)

/-- Zero or one occurrence: the operator `?`. -/
def Regex.opt (r : Regex) : Regex := Regex.alt Regex.eps r

/-- The class `[a-zA-Z0-9.-]`. -/
def hostChar (c : Char) : Bool :=
  (97 ≤ c.toNat && c.toNat ≤ 122) || (65 ≤ c.toNat && c.toNat ≤ 90) ||
    (48 ≤ c.toNat && c.toNat ≤ 57) || c == '.' || c == '-'

/-- The class `\d`: the ASCII digits. -/
def digitChar (c : Char) : Bool := 48 ≤ c.toNat && c.toNat ≤ 57

/-- The class `.` without the `s` flag: every character but the line feed. -/
def notNewline (c : Char) : Bool := c != Char.ofNat 10

/-- The body of the pattern of line 158, between its anchors:
`[a-zA-Z0-9.-]+(:\d+)?(/.*)?`. -/
def regx : Regex :=
  Regex.seq (Regex.cls hostChar).plus
    (Regex.seq (Regex.seq (Regex.cls (fun c => c == ':')) (Regex.cls digitChar).plus).opt
      (Regex.seq (Regex.cls (fun c => c == '/')) (Regex.cls notNewline).star).opt)

/-- The call `regx.MatchString(s)`: the pattern is anchored by `^` and `$` (no `m` flag), so
the search succeeds exactly when the whole text matches the body. -/
def regx_MatchString (s : String) : Bool := regx.fullMatch s.toList

/-- How `main` goes on after `flag.Parse()`: it exits through `log.Fatalln`, or it reaches
`http.ListenAndServe(addr, handler)`. -/
inductive Startup
  | fatalln (line : String)
  | listenAndServe (addr : String)
deriving DecidableEq, Repr

/-- The function `main` up to the start of the listener (lines 155-201). -/
def main (f : Flags) : Startup :=
  if !regx_MatchString f.wssHost then Startup.fatalln "websocket地址,[域名]:[端口](非443)"
  else if f.port < 1 || f.port > 65535 then Startup.fatalln "HTTP代理端口,可选值:1-65535"
  else if f.ckSize < 1 || f.ckSize > 1024 then
    Startup.fatalln "websocket每一帧的数据大小(KB),可选值:1-1024"
  else Startup.listenAndServe (":" ++ toString f.port)

/-- The relay address grammar in the words of the specification: a non-empty run of
alphanumerics, dots and hyphens, then an optional colon with one or more digits, then an
optional path that starts with a slash (and, as `.` demands, holds no line feed). -/
def WssHostGrammar (s : List Char) : Prop :=
  ∃ host port path : List Char, s = host ++ (port ++ path) ∧
    (host ≠ [] ∧ ∀ c ∈ host, hostChar c = true) ∧
    (port = [] ∨ ∃ ds, port = ':' :: ds ∧ ds ≠ [] ∧ ∀ c ∈ ds, digitChar c = true) ∧
    (path = [] ∨ ∃ q, path = '/' :: q ∧ ∀ c ∈ q, c ≠ Char.ofNat 10)

/-! ## HTTP headers -/

/-- Upper-case an ASCII letter. -/
def asciiUpper (c : Char) : Char :=
  if 97 ≤ c.toNat ∧ c.toNat ≤ 122 then Char.ofNat (c.toNat - 32) else c

/-- Lower-case an ASCII letter. -/
def asciiLower (c : Char) : Char :=
  if 65 ≤ c.toNat ∧ c.toNat ≤ 90 then Char.ofNat (c.toNat + 32) else c

/-- The bytes allowed in a header field name (the token characters of RFC 7230), by code
point: letters, digits and fifteen punctuation marks. -/
def validHeaderFieldByte (c : Char) : Bool :=
  let n := c.toNat
  (97 ≤ n && n ≤ 122) || (65 ≤ n && n ≤ 90) || (48 ≤ n && n ≤ 57) ||
    [33, 35, 36, 37, 38, 39, 42, 43, 45, 46, 94, 95, 96, 124, 126].contains n

/-- The letter-case pass of `textproto.CanonicalMIMEHeaderKey`: the first letter and every
letter after a hyphen is upper-cased, every other letter is lower-cased. -/
def canonicalCase : Bool → List Char → List Char
  | _, [] => []
  | upper, c :: cs =>
    let c1 := if upper then asciiUpper c else asciiLower c
    c1 :: canonicalCase (c1 == Char.ofNat 45) cs

/-- The key normalisation that `http.Header.Set` applies (`textproto.CanonicalMIMEHeaderKey`):
a key holding a byte that is not a token character is left as it is. -/
def CanonicalMIMEHeaderKey (key : String) : String :=
  if key.toList.all validHeaderFieldByte then String.mk (canonicalCase true key.toList) else key

/-- An `http.Header`: each (canonical) key occurs at most once and maps to its values. -/
abbrev Header := List (String × List String)

/-- The result of `make(http.Header)`. -/
def Header.make : Header := []

/-- The method `http.Header.Set`: the key is canonicalised and its entry is replaced by the
single value, which is stored as given. -/
def Header.Set (h : Header) (key value : String) : Header :=
  let k := CanonicalMIMEHeaderKey key
  (k, [value]) :: h.filter (fun e => e.1 != k)

/-- The values stored under a key, as `h[key]` reads them (`none` when the key is absent). -/
def Header.values (h : Header) (key : String) : Option (List String) :=
  (h.find? (fun e => e.1 == key)).map Prod.snd

/-! ## utlsDialTLSContext (lines 88-124) -/

/-- The effects of one TLS dial. -/
inductive TLSEvent
  /-- the call `d.DialContext(ctx, network, addr)` -/
  | dialContext (network addr : String)
  /-- the call `Debug(err)` printed a line -/
  | errLog
  /-- the call `utls.UClient(tcpConn, &utls.Config{ServerName: host}, utls.HelloRandomized)` -/
  | uClient (serverName : String)
  /-- the call `uconn.SetDeadline(dl)` with the deadline of the context -/
  | setDeadline
  /-- the call `uconn.Handshake()` -/
  | handshake
  /-- the call `tcpConn.Close()` -/
  | tcpClose
  /-- the call `uconn.SetDeadline(time.Time{})` -/
  | clearDeadline
deriving DecidableEq, Repr

/-- The result of one TLS dial: its effects and whether it returned a connection (`ok`) or
an error. -/
structure TLSDial where
  trace : List TLSEvent
  ok : Bool
deriving DecidableEq, Repr

/-- The function `utlsDialTLSContext` (lines 88-124).  `split` stands for
`net.SplitHostPort` (`none`: it returned an error); the three flags say whether the TCP dial
succeeds, whether the context carries a deadline and whether the handshake succeeds. -/
def utlsDialTLSContext (f : Flags) (split : String → Option (String × String))
    (network addr : String) (tcpOk hasDeadline handshakeOk : Bool) : TLSDial :=
  let dbg : List TLSEvent := if f.debug then [TLSEvent.errLog] else []
  if !tcpOk then ⟨TLSEvent.dialContext network addr :: dbg, false⟩
  else
    let parsed : List TLSEvent × String :=
      match split addr with
      | some (host, _) => ([], host)
      | none => (dbg, addr)
    let pre := TLSEvent.dialContext network addr ::
      (parsed.1 ++ TLSEvent.uClient parsed.2 ::
        ((if hasDeadline then [TLSEvent.setDeadline] else []) ++ [TLSEvent.handshake]))
    if !handshakeOk then ⟨pre ++ (dbg ++ [TLSEvent.tcpClose]), false⟩
    else ⟨pre ++ [TLSEvent.clearDeadline], true⟩

/-- The server names of the TLS clients a dial created, in order. -/
def serverNames : List TLSEvent → List String
  | [] => []
  | TLSEvent.uClient n :: es => n :: serverNames es
  | _ :: es => serverNames es

/-- The errors of `net.SplitHostPort`. -/
inductive AddrError
  | missingPort
  | tooManyColons
  | missingBracket
  | unexpectedOpen
  | unexpectedClose
deriving DecidableEq, Repr

/-- Index of the first occurrence of a character (`bytealg.IndexByteString`). -/
def indexByte : List Char → Char → Option Nat
  | [], _ => none
  | x :: xs, c => if x = c then some 0 else (indexByte xs c).map (fun i => i + 1)

/-- Index of the last occurrence of a character (`bytealg.LastIndexByteString`). -/
def lastIndexByte : List Char → Char → Option Nat
  | [], _ => none
  | x :: xs, c =>
    match lastIndexByte xs c with
    | some i => some (i + 1)
    | none => if x = c then some 0 else none

/-- The standard library function `net.SplitHostPort`, after its Go source: the port starts
after the last colon, and a host in square brackets may itself hold colons. -/
def SplitHostPort (hostport : String) : Except AddrError (String × String) :=
  let s := hostport.toList
  match lastIndexByte s ':' with
  | none => Except.error AddrError.missingPort
  | some i =>
    if s.head? = some '[' then
      match indexByte s ']' with
      | none => Except.error AddrError.missingBracket
      | some e =>
        if e + 1 = s.length then Except.error AddrError.missingPort
        else if e + 1 = i then
          if (indexByte (s.drop 1) '[').isSome then Except.error AddrError.unexpectedOpen
          else if (indexByte (s.drop (e + 1)) ']').isSome then
            Except.error AddrError.unexpectedClose
          else Except.ok (String.mk ((s.take e).drop 1), String.mk (s.drop (i + 1)))
        else if s.get? (e + 1) = some ':' then Except.error AddrError.tooManyColons
        else Except.error AddrError.missingPort
    else
      let host := s.take i
      if (indexByte host ':').isSome then Except.error AddrError.tooManyColons
      else if (indexByte s '[').isSome then Except.error AddrError.unexpectedOpen
      else if (indexByte s ']').isSome then Except.error AddrError.unexpectedClose
      else Except.ok (String.mk host, String.mk (s.drop (i + 1)))

/-- The function `net.SplitHostPort` as the parser handed to `utlsDialTLSContext`. -/
def netSplit (addr : String) : Option (String × String) := (SplitHostPort addr).toOption

/-! ## Effects and scripts of one session -/

/-- The constant `websocket.BinaryMessage` (RFC 6455 opcode 2). -/
def BinaryMessage : Int := 2

/-- The constant `websocket.TextMessage` (RFC 6455 opcode 1). -/
def TextMessage : Int := 1

/-- The effects of one session, as the calls that produce them. -/
inductive Event
  /-- the call `Debug(err)` printed a line (only with `-debug`) -/
  | errLog
  /-- the call `dialer.Dial(url, header)` -/
  | dial (url : String) (header : Header)
  /-- the call `io.ReadAll(resp.Body)` -/
  | readAllBody
  /-- the call `resp.Body.Close()` -/
  | bodyClose
  /-- the call `log.Fatalln(...)`: prints its operands, separated by spaces, and exits the
  process -/
  | fatalln (line : String)
  /-- the call `conn.Read(buf)` stored `data` in the buffer and returned `(len(data), err)` -/
  | connRead (data : List Byte) (err : Bool)
  /-- one message written to the tunnel: `NextWriter(mt)`, `Write(payload)`, `Close()` -/
  | wsMessage (mt : Int) (payload : List Byte)
  /-- the bytes `io.CopyBuffer` wrote to the raw connection for one message -/
  | connWrite (bytes : List Byte)
  /-- the call `ws.Close()` -/
  | wsClose
  /-- the call `conn.Close()` on the raw (client) connection -/
  | connClose
deriving DecidableEq, Repr

/-- How a function ended: it returned, it terminated the process, or it is still blocked in a
call that the script gives no result for. -/
inductive Status
  | returned
  | exited
  | blocked
deriving DecidableEq, Repr

/-- A run: the effects in program order and the way it ended. -/
structure Run where
  trace : List Event
  status : Status
deriving DecidableEq, Repr

/-- Put effects in front of a run. -/
def Run.after (pre : List Event) (r : Run) : Run := ⟨pre ++ r.trace, r.status⟩

/-- The function `Debug` (lines 29-36): prints only when the flag is set. -/
def Debug (f : Flags) : List Event := if f.debug then [Event.errLog] else []

/-- One result `(n, err)` of `conn.Read(buf)` on a buffer of `cap` bytes, with the `n` bytes
the call stored in `buf[0:n]`.  The `io.Reader` contract `0 ≤ n ≤ len(buf)` is part of the
type; a result may carry bytes and an error at once. -/
structure ReadResult (cap : Nat) where
  data : List Byte
  err : Bool
  le_cap : data.length ≤ cap

/-- What the tunnel answers when the loop sends one message. -/
inductive SendResult
  /-- the call `NextWriter`, `Write` and `Close` all succeed: the message is on the wire -/
  | ok
  /-- the call `ws.NextWriter` returns an error -/
  | nextWriterErr
  /-- the call `w.Write` returns an error -/
  | writeErr
  /-- the call `w.Close` fails to flush the message (its result is not examined) -/
  | closeErr
deriving DecidableEq, Repr

/-- One result of `ws.NextReader()`: an error, or a message of type `mt` whose reader yields
`payload` and then ends with `io.EOF` (`srcErr = false`) or with an error. -/
inductive NextReaderResult
  | err
  | msg (mt : Int) (payload : List Byte) (srcErr : Bool)
deriving DecidableEq, Repr

/-- The store `conn.Read(buf)` performs: the bytes read replace the front of the buffer. -/
def readInto (buf data : List Byte) : List Byte := data ++ buf.drop data.length

/-! ## PipeConn (lines 39-85) -/

/-- The raw-to-tunnel loop of `PipeConn` (lines 63-84).  `sends i` is the tunnel's answer to
the `i`-th message the loop opens; the list holds the successive results of `conn.Read`. -/
def rawToTunnel (f : Flags) (sends : Nat → SendResult) :
    List Byte → Nat → List (ReadResult (bufLen f)) → Run
  | _, _, [] => ⟨[], Status.blocked⟩
  | buf, i, r :: rs =>
    let buf1 := readInto buf r.data
    let n := r.data.length
    if r.err then ⟨Event.connRead r.data true :: Debug f, Status.returned⟩
    else if 0 < n then
      match sends i with
      | SendResult.nextWriterErr => ⟨Event.connRead r.data false :: Debug f, Status.returned⟩
      | SendResult.writeErr => ⟨Event.connRead r.data false :: Debug f, Status.returned⟩
      | SendResult.closeErr =>
        (rawToTunnel f sends buf1 (i + 1) rs).after [Event.connRead r.data false]
      | SendResult.ok =>
        (rawToTunnel f sends buf1 (i + 1) rs).after
          [Event.connRead r.data false, Event.wsMessage BinaryMessage (buf1.take n)]
    else (rawToTunnel f sends buf1 i rs).after [Event.connRead r.data false]

/-- The copy `io.CopyBuffer(conn, r, buf)` of one payload onto a raw connection that accepts
`budget` more bytes before its writes fail (`none`: writes never fail).  Returns the bytes
written, whether a write failed, and the budget left.  The raw connection is a
`*net.TCPConn`, so the copy is done by its `ReadFrom` method and `buf` takes no part in it;
the interleaving of the two loops is the subject of `PipeState.step`. -/
def copyToConn (budget : Option Nat) (payload : List Byte) : List Byte × Bool × Option Nat :=
  match budget with
  | none => (payload, false, none)
  | some b =>
    if payload.length ≤ b then (payload, false, some (b - payload.length))
    else (payload.take b, true, some 0)

/-- The tunnel-to-raw goroutine of `PipeConn` (lines 43-60), with its deferred
`conn.Close()`.  The list holds the successive results of `ws.NextReader()`. -/
def tunnelToRaw (f : Flags) : Option Nat → List NextReaderResult → Run
  | _, [] => ⟨[], Status.blocked⟩
  | _, NextReaderResult.err :: _ => ⟨Debug f ++ [Event.connClose], Status.returned⟩
  | budget, NextReaderResult.msg mt payload srcErr :: rest =>
    if mt ≠ BinaryMessage then tunnelToRaw f budget rest
    else
      let c := copyToConn budget payload
      if c.2.1 || srcErr then
        ⟨Event.connWrite c.1 :: (Debug f ++ [Event.connClose]), Status.returned⟩
      else (tunnelToRaw f c.2.2 rest).after [Event.connWrite c.1]

/-- The scripts one session runs against. -/
structure SessionEnv (f : Flags) where
  /-- the tunnel's answers to the messages the raw-to-tunnel loop opens -/
  sends : Nat → SendResult
  /-- the successive results of `conn.Read` -/
  reads : List (ReadResult (bufLen f))
  /-- the successive results of `ws.NextReader` -/
  recvs : List NextReaderResult
  /-- the number of bytes the raw connection accepts before its writes fail -/
  budget : Option Nat

/-- The two loops of `PipeConn`: the goroutine and the loop of the calling goroutine.
`PipeConn` returns when the second one does. -/
structure PipeRun where
  goroutine : Run
  main : Run

/-- The function `PipeConn` (lines 39-85): one buffer is allocated, the goroutine is
started, and the raw-to-tunnel loop runs in the caller. -/
def PipeConn (f : Flags) (env : SessionEnv f) : PipeRun :=
  let buf : List Byte := List.replicate (bufLen f) 0
  { goroutine := tunnelToRaw f env.budget env.recvs
    main := rawToTunnel f env.sends buf 0 env.reads }

/-! ## SetUpTunnel (lines 127-153) -/

/-- The HTTP response the dial hands back next to an error; `body` is what `io.ReadAll`
obtains from `resp.Body` (empty when the response has no body). -/
structure Response where
  status : Nat
  body : String
deriving DecidableEq, Repr

/-- The result `(ws, resp, err)` of `dialer.Dial`: a tunnel connection, or an error with or
without an HTTP response. -/
inductive DialResult
  | ok
  | failed (resp : Option Response)
deriving DecidableEq, Repr

/-- The header built at lines 130-132. -/
def tunnelHeader (f : Flags) (target : String) : Header :=
  (Header.make.Set "X-Target" target).Set "X-Password" f.passwd

/-- The function `SetUpTunnel` (lines 127-153).  `log.Fatalln` exits the process, so the
deferred `client.Close()` does not run on that path. -/
def SetUpTunnel (f : Flags) (target : String) (d : DialResult) (env : SessionEnv f) : Run :=
  let call := Event.dial ("wss://" ++ f.wssHost) (tunnelHeader f target)
  match d with
  | DialResult.failed (some resp) =>
    ⟨call :: (Debug f ++ [Event.readAllBody, Event.bodyClose,
        Event.fatalln ("连接websocket出错: " ++ resp.body)]), Status.exited⟩
  | DialResult.failed none => ⟨call :: (Debug f ++ [Event.connClose]), Status.returned⟩
  | DialResult.ok =>
    let p := (PipeConn f env).main
    match p.status with
    | Status.returned => ⟨call :: (p.trace ++ [Event.wsClose, Event.connClose]), Status.returned⟩
    | st => ⟨call :: p.trace, st⟩

/-! ## The proxy handler (lines 171-195) -/

/-- The parts of an `*http.Request` the handler reads. -/
structure Request where
  method : String
  host : String
deriving DecidableEq, Repr

/-- The constant `http.MethodConnect`. -/
def MethodConnect : String := "CONNECT"

/-- The constant `http.StatusServiceUnavailable`. -/
def StatusServiceUnavailable : Nat := 503

/-- The constant `http.StatusInternalServerError`. -/
def StatusInternalServerError : Nat := 500

/-- What the response writer offers when the handler asks for the raw connection. -/
inductive HijackResult
  /-- the assertion `w.(http.Hijacker)` fails -/
  | unsupported
  /-- the call `Hijack()` returns an error with this text -/
  | failed (msg : String)
  /-- the call `Hijack()` returns the client connection -/
  | conn
deriving DecidableEq, Repr

/-- The effects of the handler. -/
inductive HandlerEvent
  /-- the call `w.WriteHeader(status)` -/
  | writeHeader (status : Nat)
  /-- the call `http.Error(w, body, status)` -/
  | httpError (body : String) (status : Nat)
  /-- the call `hijacker.Hijack()` -/
  | hijack
  /-- the call `Debug(err)` printed a line -/
  | errLog
  /-- the call `client.Write(bytes)` on the hijacked connection -/
  | clientWrite (bytes : String)
  /-- the call `log.Printf` -/
  | logPrintf (line : String)
  /-- the statement `go SetUpTunnel(client, target)` -/
  | goSetUpTunnel (target : String)
deriving DecidableEq, Repr

/-- The success line written at line 190. -/
def connectionEstablished : String := "HTTP/1.1 200 Connection Established\r\n\r\n"

/-- The handler passed to `http.ListenAndServe` (lines 171-195). -/
def handler (f : Flags) (r : Request) (hj : HijackResult) : List HandlerEvent :=
  if r.method ≠ MethodConnect then [HandlerEvent.writeHeader StatusServiceUnavailable]
  else
    match hj with
    | HijackResult.unsupported =>
      [HandlerEvent.httpError "不支持 Hijacking" StatusInternalServerError]
    | HijackResult.failed msg =>
      HandlerEvent.hijack ::
        ((if f.debug then [HandlerEvent.errLog] else []) ++
          [HandlerEvent.httpError msg StatusServiceUnavailable])
    | HijackResult.conn =>
      [HandlerEvent.hijack, HandlerEvent.clientWrite connectionEstablished,
        HandlerEvent.logPrintf ("访问: " ++ r.host ++ "\n"),
        HandlerEvent.goSetUpTunnel r.host]

/-! ## The two loops of PipeConn as interleaved steps -/

/-- The two goroutines of one `PipeConn` call. -/
inductive Loop
  /-- the goroutine started at line 43 (tunnel to raw) -/
  | tunnelToRaw
  /-- the calling goroutine, lines 63-84 (raw to tunnel) -/
  | rawToTunnel
deriving DecidableEq, Repr

/-- The byte storage one `PipeConn` call works with. -/
inductive Storage
  /-- the slice `buf` allocated at line 40 -/
  | buf
  /-- the buffer that the `ReadFrom` method of the raw connection allocates for one copy -/
  | staging
deriving DecidableEq, Repr

/-- What a loop does with a piece of storage. -/
inductive Access
  /-- the loop passes the storage to a call: `conn.Read(buf)` or `io.CopyBuffer(conn, r, buf)` -/
  | handed (l : Loop) (s : Storage)
  /-- the loop writes bytes into the storage -/
  | store (l : Loop) (s : Storage)
  /-- the loop reads bytes out of the storage -/
  | load (l : Loop) (s : Storage)
deriving DecidableEq, Repr

/-- The memory and the connections of one `PipeConn` call while both loops run without
error.  The raw connection is the hijacked `*net.TCPConn`, which implements `io.ReaderFrom`:
`io.CopyBuffer(conn, r, buf)` leaves the copy to `conn.ReadFrom(r)`, which stages the bytes in
a buffer of its own and makes no use of the `buf` it was handed. -/
structure PipeState where
  /-- the contents of `buf` -/
  buf : List Byte
  /-- the contents of the staging buffer of the copy in progress -/
  staging : List Byte
  /-- the chunks the raw connection hands to the successive `conn.Read(buf)` calls -/
  rawIn : List (List Byte)
  /-- the count `n` of a finished `conn.Read` whose message is not written yet -/
  readN : Option Nat
  /-- the payloads of the messages written to the tunnel -/
  wsOut : List (List Byte)
  /-- the binary messages the tunnel will deliver, each as the chunks its reader yields -/
  wsIn : List (List (List Byte))
  /-- the chunks still to come from the reader of the message being copied (`none`: the
  goroutine is not inside `io.CopyBuffer`) -/
  copying : Option (List (List Byte))
  /-- the count of a finished read into the staging buffer whose write is not done yet -/
  copyN : Option Nat
  /-- the bytes written to the raw connection -/
  rawOut : List Byte
  /-- the accesses to storage, in the order they happened -/
  log : List Access
deriving DecidableEq, Repr

/-- One step of one loop.  The raw-to-tunnel loop alternates `conn.Read(buf)` (line 64) and
`w.Write(buf[:n])` (line 77).  The tunnel-to-raw loop takes the next binary message and calls
`io.CopyBuffer(conn, r, buf)` (line 55); the copy then alternates a read of the message into
the staging buffer and a write of those bytes to the raw connection, and returns when the
message is exhausted.  A loop whose input is exhausted stays blocked. -/
def PipeState.step (s : PipeState) : Loop → PipeState
  | Loop.rawToTunnel =>
    match s.readN with
    | some n =>
      { s with readN := none, wsOut := s.wsOut ++ [s.buf.take n],
               log := s.log ++ [Access.load Loop.rawToTunnel Storage.buf] }
    | none =>
      match s.rawIn with
      | [] => s
      | d :: ds =>
        { s with buf := readInto s.buf d, rawIn := ds,
                 readN := if 0 < d.length then some d.length else none,
                 log := s.log ++ [Access.handed Loop.rawToTunnel Storage.buf,
                   Access.store Loop.rawToTunnel Storage.buf] }
  | Loop.tunnelToRaw =>
    match s.copyN with
    | some nr =>
      { s with copyN := none, rawOut := s.rawOut ++ s.staging.take nr,
               log := s.log ++ [Access.load Loop.tunnelToRaw Storage.staging] }
    | none =>
      match s.copying with
      | some (c :: cs) =>
        { s with staging := readInto s.staging c, copying := some cs,
                 copyN := if 0 < c.length then some c.length else none,
                 log := s.log ++ [Access.store Loop.tunnelToRaw Storage.staging] }
      | some [] => { s with copying := none }
      | none =>
        match s.wsIn with
        | [] => s
        | m :: ms =>
          { s with wsIn := ms, copying := some m,
                   log := s.log ++ [Access.handed Loop.tunnelToRaw Storage.buf] }

/-- Run the loops in the order of a schedule. -/
def PipeState.run (s : PipeState) : List Loop → PipeState
  | [] => s
  | l :: ls => (s.step l).run ls

/-- The state at the entry of the loops: a fresh buffer of `n` bytes, the chunks the client
will send and the binary messages the relay will deliver. -/
def PipeState.start (n : Nat) (fromClient : List (List Byte))
    (fromRelay : List (List (List Byte))) : PipeState :=
  { buf := List.replicate n 0, staging := [], rawIn := fromClient, readN := none, wsOut := [],
    wsIn := fromRelay, copying := none, copyN := none, rawOut := [], log := [] }

/-- Whether an access keeps the storage of the two loops apart: `buf` is written and read by
the raw-to-tunnel loop only, the staging buffer by the tunnel-to-raw loop only; the storage
passed to a call is always `buf`. -/
def Access.apart : Access → Bool
  | Access.handed _ s => decide (s = Storage.buf)
  | Access.store l s => decide (s = Storage.buf ↔ l = Loop.rawToTunnel)
  | Access.load l s => decide (s = Storage.buf ↔ l = Loop.rawToTunnel)

/-- The message of a finished `conn.Read` that is not written yet. -/
def PipeState.pendingMessage (s : PipeState) : List (List Byte) :=
  match s.readN with
  | some n => [s.buf.take n]
  | none => []

/-- The bytes of the copy that are staged or still to come from the current message. -/
def PipeState.pendingCopy (s : PipeState) : List Byte :=
  (match s.copyN with
    | some nr => s.staging.take nr
    | none => []) ++
  (match s.copying with
    | some cs => cs.flatten
    | none => [])

/-- What every reachable state satisfies: the messages sent, the one pending and the
non-empty chunks still to be read make up the non-empty chunks of the client; the bytes
written to the raw connection, those in the copy and those still to be delivered make up the
bytes of the relay; every access keeps the storage of the two loops apart. -/
def PipeState.Inv (fromClient : List (List Byte)) (fromRelay : List (List (List Byte)))
    (s : PipeState) : Prop :=
  s.wsOut ++ (s.pendingMessage ++ s.rawIn.filter (fun d => d ≠ [])) =
      fromClient.filter (fun d => d ≠ []) ∧
    s.rawOut ++ (s.pendingCopy ++ s.wsIn.flatten.flatten) = fromRelay.flatten.flatten ∧
    ∀ a ∈ s.log, a.apart = true

/-! ## Observations on traces -/

/-- The payloads of the messages a run sent on the tunnel, in order. -/
def tunnelMessages : List Event → List (List Byte)
  | [] => []
  | Event.wsMessage _ p :: es => p :: tunnelMessages es
  | _ :: es => tunnelMessages es

/-- The message types of the messages a run sent on the tunnel, in order. -/
def tunnelMessageTypes : List Event → List Int
  | [] => []
  | Event.wsMessage mt _ :: es => mt :: tunnelMessageTypes es
  | _ :: es => tunnelMessageTypes es

/-- Every byte the raw connection handed back through the `conn.Read` calls of a run. -/
def bytesRead : List Event → List Byte
  | [] => []
  | Event.connRead d _ :: es => d ++ bytesRead es
  | _ :: es => bytesRead es

/-- The bytes a run wrote to the raw connection, in order. -/
def bytesWritten : List Event → List Byte
  | [] => []
  | Event.connWrite d :: es => d ++ bytesWritten es
  | _ :: es => bytesWritten es

/-- The tunnel that accepts every message. -/
def sendsOk : Nat → SendResult := fun _ => SendResult.ok

/-- The script of a tunnel that delivers the given complete messages, in order. -/
def delivered (msgs : List (Int × List Byte)) : List NextReaderResult :=
  msgs.map (fun m => NextReaderResult.msg m.1 m.2 false)

/-- The payloads of the binary messages among the given ones, in order. -/
def binaryPayloads (msgs : List (Int × List Byte)) : List (List Byte) :=
  (msgs.filter (fun m => m.1 == BinaryMessage)).map Prod.snd

/-- The data of the reads that come before the first failing one. -/
def cleanReads (cap : Nat) : List (ReadResult cap) → List (List Byte)
  | [] => []
  | r :: rs => if r.err then [] else r.data :: cleanReads cap rs

/-! ## Concrete inputs -/

/-- A valid configuration: port 8080, relay `relay.example.com`, chunk size 1 KiB. -/
def demoFlags : Flags := ⟨8080, "s3cret", "relay.example.com", 1, false⟩

/-- A session in which nothing arrives on either connection. -/
def demoEnv : SessionEnv demoFlags := ⟨sendsOk, [], [], none⟩

/-- Three reads without error: two bytes, no byte, two bytes. -/
def demoReads : List (ReadResult (bufLen demoFlags)) :=
  [⟨[80, 73], false, by decide⟩, ⟨[], false, by decide⟩, ⟨[78, 71], false, by decide⟩]

/-- What a client that sends `PI`, then `NG`, then closes makes the hijacked connection
return: two bytes, an empty read, two bytes, then end of stream with no byte. -/
def closedReads : List (ReadResult (bufLen demoFlags)) :=
  [⟨[80, 73], false, by decide⟩, ⟨[], false, by decide⟩, ⟨[78, 71], false, by decide⟩,
    ⟨[], true, by decide⟩]

/-- A read of two bytes, then a read that returns two bytes together with an error. -/
def lateErrorReads : List (ReadResult (bufLen demoFlags)) :=
  [⟨[80, 73], false, by decide⟩, ⟨[78, 71], true, by decide⟩]

/-- A binary message, a text message, a binary message, then a receive error. -/
def demoRecvs : List NextReaderResult :=
  delivered [(BinaryMessage, [1, 2]), (TextMessage, [9]), (BinaryMessage, [3])] ++
    [NextReaderResult.err]

/-- A session whose raw connection fails on the second read and whose tunnel fails after
three messages. -/
def closingEnv : SessionEnv demoFlags :=
  ⟨sendsOk, lateErrorReads, demoRecvs, none⟩

/-! ## Lemmas on traces -/

@[simp] theorem Run.after_trace (pre : List Event) (r : Run) :
    (r.after pre).trace = pre ++ r.trace := rfl

@[simp] theorem Run.after_status (pre : List Event) (r : Run) :
    (r.after pre).status = r.status := rfl

theorem tunnelMessages_append (a b : List Event) :
    tunnelMessages (a ++ b) = tunnelMessages a ++ tunnelMessages b := by
  induction a with
  | nil => rfl
  | cons e es ih => cases e <;> simp [tunnelMessages, ih]

theorem tunnelMessageTypes_append (a b : List Event) :
    tunnelMessageTypes (a ++ b) = tunnelMessageTypes a ++ tunnelMessageTypes b := by
  induction a with
  | nil => rfl
  | cons e es ih => cases e <;> simp [tunnelMessageTypes, ih]

theorem bytesRead_append (a b : List Event) :
    bytesRead (a ++ b) = bytesRead a ++ bytesRead b := by
  induction a with
  | nil => rfl
  | cons e es ih => cases e <;> simp [bytesRead, ih]

theorem bytesWritten_append (a b : List Event) :
    bytesWritten (a ++ b) = bytesWritten a ++ bytesWritten b := by
  induction a with
  | nil => rfl
  | cons e es ih => cases e <;> simp [bytesWritten, ih]

theorem tunnelMessages_Debug (f : Flags) : tunnelMessages (Debug f) = [] := by
  unfold Debug; split <;> rfl

theorem tunnelMessageTypes_Debug (f : Flags) : tunnelMessageTypes (Debug f) = [] := by
  unfold Debug; split <;> rfl

theorem bytesRead_Debug (f : Flags) : bytesRead (Debug f) = [] := by
  unfold Debug; split <;> rfl

theorem bytesWritten_Debug (f : Flags) : bytesWritten (Debug f) = [] := by
  unfold Debug; split <;> rfl

theorem take_readInto (buf data : List Byte) : (readInto buf data).take data.length = data := by
  simp [readInto]

theorem bufLen_of_ckSize (f : Flags) (k : Nat) (hf : f.ckSize = k) : bufLen f = k * 1024 := by
  unfold bufLen; rw [hf]; omega

/-! ## The relay dial fails (C1) -/

/-- C1, as stated, fails: when the relay answers the upgrade with a non-success response
(here status 401 with a body), `SetUpTunnel` ends in `log.Fatalln`, which terminates the
process, and the client connection is not closed by the session. -/
theorem SetUpTunnel_relay_response_exits :
    (SetUpTunnel demoFlags "example.com:443"
        (DialResult.failed (some ⟨401, "bad password"⟩)) demoEnv).status = Status.exited ∧
      Event.connClose ∉ (SetUpTunnel demoFlags "example.com:443"
        (DialResult.failed (some ⟨401, "bad password"⟩)) demoEnv).trace := by
  decide

/-- C1, amended: when the relay dial returns an error without an HTTP response,
`SetUpTunnel` ends only that session (it closes the client connection and returns); when the
dial returns an error together with an HTTP response, with or without a body, `SetUpTunnel`
reads the body, closes it and terminates the process through `log.Fatalln` with the body in
the line it prints. -/
theorem SetUpTunnel_dial_error (f : Flags) (target : String) (env : SessionEnv f) :
    SetUpTunnel f target (DialResult.failed none) env =
        ⟨Event.dial ("wss://" ++ f.wssHost) (tunnelHeader f target) ::
          (Debug f ++ [Event.connClose]), Status.returned⟩ ∧
      ∀ resp : Response,
        SetUpTunnel f target (DialResult.failed (some resp)) env =
          ⟨Event.dial ("wss://" ++ f.wssHost) (tunnelHeader f target) ::
            (Debug f ++ [Event.readAllBody, Event.bodyClose,
              Event.fatalln ("连接websocket出错: " ++ resp.body)]), Status.exited⟩ :=
  ⟨rfl, fun _ => rfl⟩

/-! ## Method gating (C2) -/

/-- C2: for a request whose method is not exactly `CONNECT` the handler does one thing, the
call `w.WriteHeader(503)`: the response has status 503 and no body, nothing is hijacked, nothing
is written to the raw connection, and no tunnel session is started. -/
theorem handler_non_connect (f : Flags) (r : Request) (hj : HijackResult)
    (h : r.method ≠ MethodConnect) :
    handler f r hj = [HandlerEvent.writeHeader 503] ∧
      HandlerEvent.hijack ∉ handler f r hj ∧
      (∀ bytes, HandlerEvent.clientWrite bytes ∉ handler f r hj) ∧
      (∀ body status, HandlerEvent.httpError body status ∉ handler f r hj) ∧
      ∀ target, HandlerEvent.goSetUpTunnel target ∉ handler f r hj := by
  have hh : handler f r hj = [HandlerEvent.writeHeader 503] := by
    simp [handler, h, StatusServiceUnavailable]
  simp [hh]

/-- C2 at a `GET` request. -/
theorem handler_non_connect_witness :
    handler demoFlags ⟨"GET", "example.com:443"⟩ HijackResult.conn =
      [HandlerEvent.writeHeader 503] :=
  (handler_non_connect demoFlags ⟨"GET", "example.com:443"⟩ HijackResult.conn (by decide)).1

/-! ## Raw to tunnel (C3, C5) -/

/-- With a tunnel that accepts every message, the loop sends one message per non-empty read
that precedes the first failing read, carrying that read's bytes. -/
theorem rawToTunnel_messages (f : Flags) (reads : List (ReadResult (bufLen f))) :
    ∀ (buf : List Byte) (i : Nat),
      tunnelMessages (rawToTunnel f sendsOk buf i reads).trace =
        (cleanReads (bufLen f) reads).filter (fun d => d ≠ []) := by
  induction reads with
  | nil => intro buf i; rfl
  | cons r rs ih =>
    intro buf i
    simp only [rawToTunnel, cleanReads]
    by_cases he : r.err = true
    · simp [he, tunnelMessages, tunnelMessages_Debug]
    · by_cases hn : 0 < r.data.length
      · have hne : r.data ≠ [] := by
          intro h0; simp [h0] at hn
        simp [he, hn, sendsOk, tunnelMessages, ih, take_readInto, hne, List.filter_cons]
      · have h0 : r.data = [] := by
          cases hd : r.data with
          | nil => rfl
          | cons a as => simp [hd] at hn
        simp [he, h0, tunnelMessages, ih, List.filter_cons]

theorem tunnelMessageTypes_rawToTunnel (f : Flags) (sends : Nat → SendResult)
    (reads : List (ReadResult (bufLen f))) :
    ∀ (buf : List Byte) (i : Nat),
      ∀ mt ∈ tunnelMessageTypes (rawToTunnel f sends buf i reads).trace, mt = BinaryMessage := by
  induction reads with
  | nil => intro buf i mt h; simp [rawToTunnel, tunnelMessageTypes] at h
  | cons r rs ih =>
    intro buf i mt h
    simp only [rawToTunnel] at h
    split at h
    · simp [tunnelMessageTypes, tunnelMessageTypes_Debug] at h
    · split at h
      · split at h
        · simp [tunnelMessageTypes, tunnelMessageTypes_Debug] at h
        · simp [tunnelMessageTypes, tunnelMessageTypes_Debug] at h
        · simp [tunnelMessageTypes] at h
          exact ih _ _ mt h
        · simp [tunnelMessageTypes] at h
          rcases h with h | h
          · exact h
          · exact ih _ _ mt h
      · simp [tunnelMessageTypes] at h
        exact ih _ _ mt h

theorem cleanReads_of_no_error (cap : Nat) (reads : List (ReadResult cap))
    (h : ∀ r ∈ reads, r.err = false) : cleanReads cap reads = reads.map (fun r => r.data) := by
  induction reads with
  | nil => rfl
  | cons r rs ih =>
    have hr : r.err = false := h r (List.mem_cons_self _ _)
    simp [cleanReads, hr, ih (fun x hx => h x (List.mem_cons_of_mem _ hx))]

/-- On a connection whose failing reads carry no byte, the bytes the loop is handed are the
bytes of the reads that precede the first failing one. -/
theorem rawToTunnel_bytesRead (f : Flags) (reads : List (ReadResult (bufLen f)))
    (htcp : ∀ r ∈ reads, r.err = true → r.data = []) :
    ∀ (buf : List Byte) (i : Nat),
      bytesRead (rawToTunnel f sendsOk buf i reads).trace =
        (cleanReads (bufLen f) reads).flatten := by
  induction reads with
  | nil => intro buf i; rfl
  | cons r rs ih =>
    intro buf i
    have ih2 := ih (fun x hx => htcp x (List.mem_cons_of_mem _ hx))
    simp only [rawToTunnel, cleanReads]
    by_cases he : r.err = true
    · have h0 : r.data = [] := htcp r (List.mem_cons_self _ _) he
      simp [he, h0, bytesRead, bytesRead_Debug]
    · by_cases hn : 0 < r.data.length
      · simp [he, hn, sendsOk, bytesRead, ih2]
      · simp [he, hn, bytesRead, ih2]

theorem flatten_filter_nonempty (ds : List (List Byte)) :
    (ds.filter (fun d => d ≠ [])).flatten = ds.flatten := by
  induction ds with
  | nil => rfl
  | cons d ds ih =>
    by_cases hd : d = []
    · simpa [List.filter_cons, hd] using ih
    · simpa [List.filter_cons, hd] using ih

/-- C3: raw-to-tunnel round trip.  For every chunk size and every sequence of results of
`conn.Read` on the hijacked connection, whose `Read` returns no byte when it returns an error
(a `*net.TCPConn`), and with a tunnel that accepts every message: the concatenation of the
payloads of the messages sent on the tunnel is every byte the connection handed back through
its `Read` calls, in order, and these are all the bytes the script holds up to the read that
ends the session.  No byte is lost, duplicated or reordered, whatever the segmentation. -/
theorem PipeConn_round_trip (f : Flags) (env : SessionEnv f) (hs : env.sends = sendsOk)
    (htcp : ∀ r ∈ env.reads, r.err = true → r.data = []) :
    (tunnelMessages (PipeConn f env).main.trace).flatten =
        bytesRead (PipeConn f env).main.trace ∧
      bytesRead (PipeConn f env).main.trace = (cleanReads (bufLen f) env.reads).flatten := by
  simp only [PipeConn, hs]
  rw [rawToTunnel_messages, rawToTunnel_bytesRead f env.reads htcp, flatten_filter_nonempty]
  exact ⟨rfl, rfl⟩

/-- C3 at a client that sends `PI`, then `NG`, then closes: the tunnel carries `PING`. -/
theorem PipeConn_round_trip_witness :
    (tunnelMessages (PipeConn demoFlags ⟨sendsOk, closedReads, [], none⟩).main.trace).flatten =
        [80, 73, 78, 71] ∧
      bytesRead (PipeConn demoFlags ⟨sendsOk, closedReads, [], none⟩).main.trace =
        [80, 73, 78, 71] :=
  have h := PipeConn_round_trip demoFlags ⟨sendsOk, closedReads, [], none⟩ rfl (by decide)
  ⟨h.1.trans (by decide), by decide⟩

/-- C5: with chunk size `k` and a tunnel that accepts every message, for every sequence of
error-free reads the messages sent are the non-empty reads, in read order and one message per
read; every message is binary and has between 1 and `k * 1024` bytes. -/
theorem PipeConn_framing (f : Flags) (k : Nat) (hf : f.ckSize = k)
    (env : SessionEnv f) (hs : env.sends = sendsOk) (hr : ∀ r ∈ env.reads, r.err = false) :
    tunnelMessages (PipeConn f env).main.trace =
        (env.reads.map (fun r => r.data)).filter (fun d => d ≠ []) ∧
      (∀ mt ∈ tunnelMessageTypes (PipeConn f env).main.trace, mt = BinaryMessage) ∧
      ∀ m ∈ tunnelMessages (PipeConn f env).main.trace, 1 ≤ m.length ∧ m.length ≤ k * 1024 := by
  have hmsg : tunnelMessages (PipeConn f env).main.trace =
      (env.reads.map (fun r => r.data)).filter (fun d => d ≠ []) := by
    simp only [PipeConn, hs]
    rw [rawToTunnel_messages, cleanReads_of_no_error _ _ hr]
  refine ⟨hmsg, ?_, ?_⟩
  · exact tunnelMessageTypes_rawToTunnel f env.sends env.reads _ _
  · intro m hm
    rw [hmsg] at hm
    simp only [List.mem_filter, List.mem_map] at hm
    obtain ⟨⟨r, _, hrd⟩, hne⟩ := hm
    subst hrd
    constructor
    · have : r.data ≠ [] := by simpa using hne
      exact List.length_pos.mpr this
    · have h1 := r.le_cap
      have h2 := bufLen_of_ckSize f k hf
      omega

/-- C5 at three reads, the second of which is empty. -/
theorem PipeConn_framing_witness :
    tunnelMessages (PipeConn demoFlags ⟨sendsOk, demoReads, [], none⟩).main.trace =
      [[80, 73], [78, 71]] :=
  (PipeConn_framing demoFlags 1 (by decide) ⟨sendsOk, demoReads, [], none⟩ rfl
    (by decide)).1.trans (by decide)

/-! ## Tunnel to raw (C4) -/

theorem tunnelToRaw_delivered (f : Flags) (tail : List NextReaderResult)
    (htail : tail = [] ∨ ∃ rest, tail = NextReaderResult.err :: rest)
    (msgs : List (Int × List Byte)) :
    bytesWritten (tunnelToRaw f none (delivered msgs ++ tail)).trace =
      (binaryPayloads msgs).flatten := by
  induction msgs with
  | nil =>
    rcases htail with h | ⟨rest, h⟩
    · subst h; rfl
    · subst h
      simp [delivered, tunnelToRaw, binaryPayloads, bytesWritten_append, bytesWritten_Debug,
        bytesWritten]
  | cons m ms ih =>
    by_cases hb : m.1 = BinaryMessage
    · have ih2 : bytesWritten (tunnelToRaw f none
          (List.map (fun m => NextReaderResult.msg m.1 m.2 false) ms ++ tail)).trace =
          (binaryPayloads ms).flatten := ih
      simp [delivered, tunnelToRaw, binaryPayloads, hb, copyToConn, bytesWritten,
        List.filter_cons, ih2]
    · have ih2 : bytesWritten (tunnelToRaw f none
          (List.map (fun m => NextReaderResult.msg m.1 m.2 false) ms ++ tail)).trace =
          (binaryPayloads ms).flatten := ih
      simp [delivered, tunnelToRaw, binaryPayloads, hb, List.filter_cons, ih2]

/-- C4: for every sequence of complete tunnel messages, whether the tunnel then stays silent
or reports a receive error, and with a raw connection whose writes never fail, the bytes
written to the raw connection are exactly the payloads of the binary messages, concatenated in
arrival order.  A message of another type adds no byte and holds back no later binary
message. -/
theorem PipeConn_tunnel_to_raw_filter (f : Flags) (sends : Nat → SendResult)
    (reads : List (ReadResult (bufLen f))) (msgs : List (Int × List Byte))
    (rest : List NextReaderResult) :
    bytesWritten (PipeConn f ⟨sends, reads, delivered msgs, none⟩).goroutine.trace =
        (binaryPayloads msgs).flatten ∧
      bytesWritten (PipeConn f
          ⟨sends, reads, delivered msgs ++ NextReaderResult.err :: rest, none⟩).goroutine.trace =
        (binaryPayloads msgs).flatten := by
  constructor
  · have h := tunnelToRaw_delivered f [] (Or.inl rfl) msgs
    simpa [PipeConn] using h
  · exact tunnelToRaw_delivered f _ (Or.inr ⟨rest, rfl⟩) msgs

/-! ## Header fidelity (C6) -/

theorem tunnelHeader_eq (f : Flags) (t : String) :
    tunnelHeader f t = [("X-Password", [f.passwd]), ("X-Target", [t])] := by
  have h1 : CanonicalMIMEHeaderKey "X-Target" = "X-Target" := by decide
  have h2 : CanonicalMIMEHeaderKey "X-Password" = "X-Password" := by decide
  simp [tunnelHeader, Header.Set, Header.make, h1, h2]

theorem tunnelHeader_values (f : Flags) (t key : String) :
    (tunnelHeader f t).values key =
      if key = "X-Target" then some [t]
      else if key = "X-Password" then some [f.passwd] else none := by
  rw [tunnelHeader_eq]
  by_cases h1 : key = "X-Target"
  · subst h1; simp [Header.values, List.find?]
  · by_cases h2 : key = "X-Password"
    · subst h2; simp [Header.values, List.find?]
    · have h1b : ("X-Target" == key) = false := by
        simpa using fun h => h1 h.symm
      have h2b : ("X-Password" == key) = false := by
        simpa using fun h => h2 h.symm
      simp [Header.values, List.find?, h1, h2, h1b, h2b]

theorem rawToTunnel_no_dial (f : Flags) (sends : Nat → SendResult)
    (reads : List (ReadResult (bufLen f))) :
    ∀ (buf : List Byte) (i : Nat) (u : String) (h : Header),
      Event.dial u h ∉ (rawToTunnel f sends buf i reads).trace := by
  induction reads with
  | nil => intro buf i u h; simp [rawToTunnel]
  | cons r rs ih =>
    intro buf i u h
    simp only [rawToTunnel]
    have hd : Event.dial u h ∉ Debug f := by
      unfold Debug; split <;> simp
    split
    · simp [hd]
    · split
      · split <;> simp [hd, ih]
      · simp [ih]

/-- C6: a `CONNECT` request with host `T` starts a session with target exactly `T`, the
session calls the relay dial once, and the header it passes holds `X-Target` with the single
value `T`, `X-Password` with the single value of the configured secret, and no other key. -/
theorem header_fidelity (f : Flags) (r : Request) (d : DialResult) (env : SessionEnv f)
    (hm : r.method = MethodConnect) :
    HandlerEvent.goSetUpTunnel r.host ∈ handler f r HijackResult.conn ∧
      (∀ hj t, HandlerEvent.goSetUpTunnel t ∈ handler f r hj → t = r.host) ∧
      (∃ rest, (SetUpTunnel f r.host d env).trace =
          Event.dial ("wss://" ++ f.wssHost) (tunnelHeader f r.host) :: rest ∧
        ∀ u h, Event.dial u h ∉ rest) ∧
      ∀ key, (tunnelHeader f r.host).values key =
        if key = "X-Target" then some [r.host]
        else if key = "X-Password" then some [f.passwd] else none := by
  refine ⟨?_, ?_, ?_, tunnelHeader_values f r.host⟩
  · simp [handler, hm]
  · intro hj t ht
    cases hj <;> simp [handler, hm] at ht
    exact ht
  · have hd : ∀ u h, Event.dial u h ∉ Debug f := by
      intro u h; unfold Debug; split <;> simp
    cases d with
    | failed resp =>
      cases resp with
      | none => exact ⟨_, rfl, by intro u h; simp [hd]⟩
      | some resp => exact ⟨_, rfl, by intro u h; simp [hd]⟩
    | ok =>
      simp only [SetUpTunnel]
      have hn := rawToTunnel_no_dial f env.sends env.reads (List.replicate (bufLen f) 0) 0
      cases hs : (PipeConn f env).main.status <;>
        refine ⟨_, rfl, ?_⟩ <;> intro u h <;> simp [PipeConn, hn]

/-- C6 at the target `example.com:443` and the secret `s3cret`. -/
theorem header_fidelity_witness :
    (tunnelHeader demoFlags "example.com:443").values "X-Target" = some ["example.com:443"] ∧
      (tunnelHeader demoFlags "example.com:443").values "X-Password" = some ["s3cret"] :=
  have h := (header_fidelity demoFlags ⟨"CONNECT", "example.com:443"⟩ DialResult.ok demoEnv
    (by decide)).2.2.2
  ⟨by simpa using h "X-Target", by simpa using h "X-Password"⟩

/-! ## Startup validation (C7) -/

theorem fullMatch_never (s : List Char) : Regex.never.fullMatch s = false := by
  induction s with
  | nil => rfl
  | cons c cs ih => simpa [Regex.fullMatch, Regex.deriv] using ih

theorem fullMatch_eps (s : List Char) : Regex.eps.fullMatch s = true ↔ s = [] := by
  cases s with
  | nil => simp [Regex.fullMatch, Regex.nullable]
  | cons c cs => simp [Regex.fullMatch, Regex.deriv, fullMatch_never]

theorem fullMatch_cls (p : Char → Bool) (s : List Char) :
    (Regex.cls p).fullMatch s = true ↔ ∃ c, s = [c] ∧ p c = true := by
  cases s with
  | nil => simp [Regex.fullMatch, Regex.nullable]
  | cons c cs =>
    by_cases hp : p c = true
    · simp only [Regex.fullMatch, Regex.deriv, hp, if_true]
      rw [fullMatch_eps]
      constructor
      · rintro rfl; exact ⟨c, rfl, hp⟩
      · rintro ⟨d, hd, _⟩
        simp at hd
        exact hd.2
    · simp only [Regex.fullMatch, Regex.deriv, hp]
      simp only [Bool.false_eq_true, if_false, fullMatch_never, false_iff]
      rintro ⟨d, hd, hpd⟩
      simp at hd
      rw [← hd.1] at hpd
      exact hp hpd

theorem fullMatch_alt (a b : Regex) (s : List Char) :
    (Regex.alt a b).fullMatch s = (a.fullMatch s || b.fullMatch s) := by
  induction s generalizing a b with
  | nil => rfl
  | cons c cs ih => simp [Regex.fullMatch, Regex.deriv, ih]

theorem fullMatch_seq (a b : Regex) (s : List Char) :
    (Regex.seq a b).fullMatch s = true ↔
      ∃ t u, s = t ++ u ∧ a.fullMatch t = true ∧ b.fullMatch u = true := by
  induction s generalizing a with
  | nil =>
    simp only [Regex.fullMatch, Regex.nullable, Bool.and_eq_true]
    constructor
    · rintro ⟨ha, hb⟩
      exact ⟨[], [], rfl, ha, hb⟩
    · rintro ⟨t, u, htu, ha, hb⟩
      have h2 := List.append_eq_nil.mp htu.symm
      rw [h2.1] at ha
      rw [h2.2] at hb
      exact ⟨ha, hb⟩
  | cons c cs ih =>
    have hstep : (∃ t u, c :: cs = t ++ u ∧ a.fullMatch t = true ∧ b.fullMatch u = true) ↔
        (a.nullable = true ∧ b.fullMatch (c :: cs) = true) ∨
          ∃ t u, cs = t ++ u ∧ (a.deriv c).fullMatch t = true ∧ b.fullMatch u = true := by
      constructor
      · rintro ⟨t, u, htu, ha, hb⟩
        cases t with
        | nil =>
          left
          simp at htu
          subst htu
          exact ⟨ha, hb⟩
        | cons x xs =>
          right
          simp at htu
          obtain ⟨hx, hcs⟩ := htu
          subst hx
          exact ⟨xs, u, hcs, ha, hb⟩
      · rintro (⟨ha, hb⟩ | ⟨t, u, htu, ha, hb⟩)
        · exact ⟨[], c :: cs, rfl, ha, hb⟩
        · exact ⟨c :: t, u, by simp [htu], ha, hb⟩
    rw [hstep]
    have hb : b.fullMatch (c :: cs) = (b.deriv c).fullMatch cs := rfl
    by_cases hn : a.nullable = true
    · have hd : (Regex.seq a b).fullMatch (c :: cs) =
          (Regex.alt (Regex.seq (a.deriv c) b) (b.deriv c)).fullMatch cs := by
        simp [Regex.fullMatch, Regex.deriv, hn]
      rw [hd, fullMatch_alt, Bool.or_eq_true, ih, hb]
      constructor
      · rintro (h | h)
        · exact Or.inr h
        · exact Or.inl ⟨hn, h⟩
      · rintro (h | h)
        · exact Or.inr h.2
        · exact Or.inl h
    · have hd : (Regex.seq a b).fullMatch (c :: cs) =
          (Regex.seq (a.deriv c) b).fullMatch cs := by
        simp [Regex.fullMatch, Regex.deriv, hn]
      rw [hd, ih]
      constructor
      · intro h; exact Or.inr h
      · rintro (h | h)
        · exact absurd h.1 hn
        · exact h

theorem fullMatch_star_cls (p : Char → Bool) (s : List Char) :
    (Regex.cls p).star.fullMatch s = true ↔ ∀ c ∈ s, p c = true := by
  induction s with
  | nil => simp [Regex.fullMatch, Regex.nullable]
  | cons c cs ih =>
    have h : (Regex.cls p).star.fullMatch (c :: cs) =
        (Regex.seq ((Regex.cls p).deriv c) (Regex.cls p).star).fullMatch cs := rfl
    rw [h, fullMatch_seq]
    by_cases hp : p c = true
    · simp only [Regex.deriv, hp, if_true, fullMatch_eps]
      constructor
      · rintro ⟨t, u, htu, ht, hu⟩
        subst ht
        simp only [List.nil_append] at htu
        subst htu
        intro x hx
        rcases List.mem_cons.mp hx with rfl | hx
        · exact hp
        · exact ih.mp hu x hx
      · intro h
        exact ⟨[], cs, rfl, rfl, ih.mpr (fun x hx => h x (List.mem_cons_of_mem _ hx))⟩
    · simp only [Regex.deriv, hp]
      simp only [Bool.false_eq_true, if_false, fullMatch_never, false_and, and_false,
        exists_false, false_iff]
      intro h
      exact hp (h c (List.mem_cons_self _ _))

theorem fullMatch_plus_cls (p : Char → Bool) (s : List Char) :
    (Regex.cls p).plus.fullMatch s = true ↔ s ≠ [] ∧ ∀ c ∈ s, p c = true := by
  unfold Regex.plus
  rw [fullMatch_seq]
  constructor
  · rintro ⟨t, u, rfl, ht, hu⟩
    obtain ⟨c, rfl, hc⟩ := (fullMatch_cls p t).mp ht
    have hu2 := (fullMatch_star_cls p u).mp hu
    refine ⟨by simp, ?_⟩
    intro x hx
    simp at hx
    rcases hx with rfl | hx
    · exact hc
    · exact hu2 x hx
  · rintro ⟨hne, hall⟩
    cases s with
    | nil => exact absurd rfl hne
    | cons c cs =>
      refine ⟨[c], cs, rfl, (fullMatch_cls p [c]).mpr ⟨c, rfl, hall c (by simp)⟩, ?_⟩
      exact (fullMatch_star_cls p cs).mpr (fun x hx => hall x (by simp [hx]))

theorem fullMatch_opt (r : Regex) (s : List Char) :
    r.opt.fullMatch s = true ↔ s = [] ∨ r.fullMatch s = true := by
  unfold Regex.opt
  rw [fullMatch_alt]
  simp [fullMatch_eps]

theorem fullMatch_prefixed (ch : Char) (r : Regex) (s : List Char) :
    (Regex.seq (Regex.cls (fun c => c == ch)) r).fullMatch s = true ↔
      ∃ q, s = ch :: q ∧ r.fullMatch q = true := by
  rw [fullMatch_seq]
  constructor
  · rintro ⟨t, u, rfl, ht, hu⟩
    obtain ⟨c, rfl, hc⟩ := (fullMatch_cls _ t).mp ht
    have hcc : c = ch := by simpa using hc
    subst hcc
    exact ⟨u, rfl, hu⟩
  · rintro ⟨q, rfl, hq⟩
    exact ⟨[ch], q, rfl, (fullMatch_cls _ [ch]).mpr ⟨ch, rfl, by simp⟩, hq⟩

theorem regx_fullMatch_iff (s : List Char) :
    regx.fullMatch s = true ↔ WssHostGrammar s := by
  unfold regx WssHostGrammar
  rw [fullMatch_seq]
  constructor
  · rintro ⟨host, u, rfl, hhost, hu⟩
    obtain ⟨port, path, rfl, hport, hpath⟩ := (fullMatch_seq _ _ u).mp hu
    refine ⟨host, port, path, rfl, (fullMatch_plus_cls _ host).mp hhost, ?_, ?_⟩
    · rcases (fullMatch_opt _ port).mp hport with h | h
      · exact Or.inl h
      · obtain ⟨ds, rfl, hds⟩ := (fullMatch_prefixed ':' _ port).mp h
        exact Or.inr ⟨ds, rfl, (fullMatch_plus_cls _ ds).mp hds⟩
    · rcases (fullMatch_opt _ path).mp hpath with h | h
      · exact Or.inl h
      · obtain ⟨q, rfl, hq⟩ := (fullMatch_prefixed '/' _ path).mp h
        refine Or.inr ⟨q, rfl, ?_⟩
        intro c hc
        have := (fullMatch_star_cls _ q).mp hq c hc
        simpa [notNewline] using this
  · rintro ⟨host, port, path, rfl, hhost, hport, hpath⟩
    refine ⟨host, port ++ path, rfl, (fullMatch_plus_cls _ host).mpr hhost, ?_⟩
    refine (fullMatch_seq _ _ _).mpr ⟨port, path, rfl, ?_, ?_⟩
    · refine (fullMatch_opt _ port).mpr ?_
      rcases hport with h | ⟨ds, rfl, hds⟩
      · exact Or.inl h
      · exact Or.inr ((fullMatch_prefixed ':' _ _).mpr
          ⟨ds, rfl, (fullMatch_plus_cls _ ds).mpr hds⟩)
    · refine (fullMatch_opt _ path).mpr ?_
      rcases hpath with h | ⟨q, rfl, hq⟩
      · exact Or.inl h
      · refine Or.inr ((fullMatch_prefixed '/' _ _).mpr ⟨q, rfl, ?_⟩)
        refine (fullMatch_star_cls _ q).mpr ?_
        intro c hc
        simpa [notNewline] using hq c hc

theorem main_listens_iff (f : Flags) :
    main f = Startup.listenAndServe (":" ++ toString f.port) ↔
      regx_MatchString f.wssHost = true ∧ (1 ≤ f.port ∧ f.port ≤ 65535) ∧
        (1 ≤ f.ckSize ∧ f.ckSize ≤ 1024) := by
  unfold main
  by_cases h1 : regx_MatchString f.wssHost = true
  · by_cases h2 : f.port < 1 ∨ f.port > 65535
    · have h2b : (decide (f.port < 1) || decide (f.port > 65535)) = true := by simpa using h2
      simp only [h1, h2b]
      simp
      omega
    · have h2b : (decide (f.port < 1) || decide (f.port > 65535)) = false := by simpa using h2
      by_cases h3 : f.ckSize < 1 ∨ f.ckSize > 1024
      · have h3b : (decide (f.ckSize < 1) || decide (f.ckSize > 1024)) = true := by
          simpa using h3
        simp only [h1, h2b, h3b]
        simp
        omega
      · have h3b : (decide (f.ckSize < 1) || decide (f.ckSize > 1024)) = false := by
          simpa using h3
        simp only [h1, h2b, h3b]
        simp
        omega
  · simp [h1]

theorem main_fatal_or_listens (f : Flags) :
    main f = Startup.listenAndServe (":" ++ toString f.port) ∨ ∃ line, main f = Startup.fatalln line := by
  unfold main
  split
  · exact Or.inr ⟨_, rfl⟩
  · split
    · exact Or.inr ⟨_, rfl⟩
    · split
      · exact Or.inr ⟨_, rfl⟩
      · exact Or.inl rfl

/-- C7: `main` reaches `http.ListenAndServe` exactly when the relay address matches the
pattern of line 158, the port is in 1..65535 and the chunk size is in 1..1024; the pattern
matches exactly the addresses of the grammar (host run, optional colon and digits, optional
path); for every other configuration, the empty address included, `main` ends in
`log.Fatalln` before the listener starts. -/
theorem startup_validation (f : Flags) :
    (regx_MatchString f.wssHost = true ↔ WssHostGrammar f.wssHost.toList) ∧
      (main f = Startup.listenAndServe (":" ++ toString f.port) ↔
        regx_MatchString f.wssHost = true ∧ (1 ≤ f.port ∧ f.port ≤ 65535) ∧
          (1 ≤ f.ckSize ∧ f.ckSize ≤ 1024)) ∧
      (¬(regx_MatchString f.wssHost = true ∧ (1 ≤ f.port ∧ f.port ≤ 65535) ∧
          (1 ≤ f.ckSize ∧ f.ckSize ≤ 1024)) →
        ∃ line, main f = Startup.fatalln line) ∧
      (f.wssHost = "" → ∃ line, main f = Startup.fatalln line) := by
  have hfat : ¬(regx_MatchString f.wssHost = true ∧ (1 ≤ f.port ∧ f.port ≤ 65535) ∧
      (1 ≤ f.ckSize ∧ f.ckSize ≤ 1024)) → ∃ line, main f = Startup.fatalln line := by
    intro hn
    rcases main_fatal_or_listens f with h | h
    · exact absurd ((main_listens_iff f).mp h) hn
    · exact h
  refine ⟨regx_fullMatch_iff _, main_listens_iff f, hfat, ?_⟩
  intro he
  apply hfat
  intro h
  have : regx_MatchString "" = true := he ▸ h.1
  exact absurd this (by decide)

/-- C7 at a valid configuration and at the empty relay address. -/
theorem startup_validation_witness :
    main ⟨8080, "s3cret", "relay.example.com:8443/ws", 64, false⟩ =
        Startup.listenAndServe ":8080" ∧
      ∃ line, main ⟨8080, "s3cret", "", 64, false⟩ = Startup.fatalln line :=
  ⟨((startup_validation ⟨8080, "s3cret", "relay.example.com:8443/ws", 64, false⟩).2.1).mpr
      (by decide),
    (startup_validation ⟨8080, "s3cret", "", 64, false⟩).2.2.2 rfl⟩

/-! ## Session cleanup (C8) -/

theorem tunnelToRaw_returned_closes (f : Flags) (recvs : List NextReaderResult) :
    ∀ budget, (tunnelToRaw f budget recvs).status = Status.returned →
      ∃ pre, (tunnelToRaw f budget recvs).trace = pre ++ [Event.connClose] := by
  induction recvs with
  | nil => intro budget h; simp [tunnelToRaw] at h
  | cons x xs ih =>
    intro budget h
    cases x with
    | err => exact ⟨Debug f, by simp [tunnelToRaw]⟩
    | msg mt payload srcErr =>
      simp only [tunnelToRaw] at h ⊢
      by_cases hmt : mt ≠ BinaryMessage
      · rw [if_pos hmt] at h ⊢
        exact ih budget h
      · rw [if_neg hmt] at h ⊢
        by_cases hc : ((copyToConn budget payload).2.1 || srcErr) = true
        · rw [if_pos hc]
          exact ⟨Event.connWrite (copyToConn budget payload).1 :: Debug f, by simp⟩
        · rw [if_neg hc] at h ⊢
          obtain ⟨pre, hpre⟩ := ih _ h
          exact ⟨Event.connWrite (copyToConn budget payload).1 :: pre, by simp [hpre]⟩

theorem tunnelToRaw_returns (f : Flags) (recvs : List NextReaderResult)
    (h : NextReaderResult.err ∈ recvs) :
    ∀ budget, (tunnelToRaw f budget recvs).status = Status.returned := by
  induction recvs with
  | nil => simp at h
  | cons x xs ih =>
    intro budget
    cases x with
    | err => simp [tunnelToRaw]
    | msg mt payload srcErr =>
      have hx : NextReaderResult.err ∈ xs := by simpa using h
      simp only [tunnelToRaw]
      split
      · exact ih hx budget
      · split
        · rfl
        · exact ih hx _

theorem rawToTunnel_returns (f : Flags) (sends : Nat → SendResult)
    (reads : List (ReadResult (bufLen f))) (h : ∃ r ∈ reads, r.err = true) :
    ∀ (buf : List Byte) (i : Nat), (rawToTunnel f sends buf i reads).status = Status.returned := by
  induction reads with
  | nil => simp at h
  | cons r rs ih =>
    intro buf i
    simp only [rawToTunnel]
    split
    · rfl
    · rename_i he
      have hx : ∃ r ∈ rs, r.err = true := by
        obtain ⟨x, hx, hxe⟩ := h
        rcases List.mem_cons.mp hx with h1 | h1
        · subst h1; exact absurd hxe he
        · exact ⟨x, h1, hxe⟩
      split
      · split
        · rfl
        · rfl
        · exact ih hx _ _
        · exact ih hx _ _
      · exact ih hx _ _

/-- C8: when `SetUpTunnel` returns, its last effect is closing the client connection, and
after a successful dial the tunnel is closed just before; when the tunnel-to-raw loop ends
(receive, copy or write error) its last effect is closing the raw connection.  A receive error
on the tunnel makes the tunnel-to-raw loop end, and a failing read on the raw connection makes
the session return. -/
theorem session_cleanup (f : Flags) (target : String) (d : DialResult) (env : SessionEnv f) :
    ((SetUpTunnel f target d env).status = Status.returned →
        (∃ pre, (SetUpTunnel f target d env).trace = pre ++ [Event.connClose]) ∧
          (d = DialResult.ok →
            ∃ pre, (SetUpTunnel f target d env).trace =
              pre ++ [Event.wsClose, Event.connClose])) ∧
      ((PipeConn f env).goroutine.status = Status.returned →
        ∃ pre, (PipeConn f env).goroutine.trace = pre ++ [Event.connClose]) ∧
      (NextReaderResult.err ∈ env.recvs →
        (PipeConn f env).goroutine.status = Status.returned) ∧
      ((∃ r ∈ env.reads, r.err = true) →
        (SetUpTunnel f target DialResult.ok env).status = Status.returned) := by
  refine ⟨?_, ?_, ?_, ?_⟩
  · intro h
    cases d with
    | failed resp =>
      cases resp with
      | none =>
        exact ⟨⟨Event.dial ("wss://" ++ f.wssHost) (tunnelHeader f target) :: Debug f,
          by simp [SetUpTunnel]⟩, fun hd => by cases hd⟩
      | some resp => simp [SetUpTunnel] at h
    | ok =>
      simp only [SetUpTunnel] at h ⊢
      cases hs : (PipeConn f env).main.status with
      | returned =>
        refine ⟨⟨Event.dial ("wss://" ++ f.wssHost) (tunnelHeader f target) ::
          ((PipeConn f env).main.trace ++ [Event.wsClose]), by simp⟩, fun _ => ?_⟩
        exact ⟨Event.dial ("wss://" ++ f.wssHost) (tunnelHeader f target) ::
          (PipeConn f env).main.trace, by simp⟩
      | exited => rw [hs] at h; simp at h
      | blocked => rw [hs] at h; simp at h
  · intro h
    exact tunnelToRaw_returned_closes f env.recvs env.budget h
  · intro h
    exact tunnelToRaw_returns f env.recvs h env.budget
  · intro h
    have hr := rawToTunnel_returns f env.sends env.reads h (List.replicate (bufLen f) 0) 0
    have hp : (PipeConn f env).main.status = Status.returned := hr
    simp [SetUpTunnel, hp]

/-- C8 at a session whose raw connection fails on its second read. -/
theorem session_cleanup_witness :
    (∃ pre, (SetUpTunnel demoFlags "example.com:443" DialResult.ok closingEnv).trace =
        pre ++ [Event.wsClose, Event.connClose]) ∧
      ∃ pre, (PipeConn demoFlags closingEnv).goroutine.trace = pre ++ [Event.connClose] :=
  have h := session_cleanup demoFlags "example.com:443" DialResult.ok closingEnv
  ⟨(h.1 (by decide)).2 rfl, h.2.1 (by decide)⟩

/-! ## Server name (C9) -/

/-- C9: once the TCP dial has succeeded, the TLS client is created with the host part of the
parse when the address parses as host and port, and with the whole address when it does not;
whether the dial returns an error depends on the TCP dial and the handshake only, not on the
parse. -/
theorem sni_derivation (f : Flags) (split : String → Option (String × String))
    (network addr : String) (hasDeadline handshakeOk : Bool) :
    (∀ host port, split addr = some (host, port) →
        serverNames (utlsDialTLSContext f split network addr true hasDeadline handshakeOk).trace
          = [host]) ∧
      (split addr = none →
        serverNames (utlsDialTLSContext f split network addr true hasDeadline handshakeOk).trace
          = [addr]) ∧
      ∀ tcpOk, (utlsDialTLSContext f split network addr tcpOk hasDeadline handshakeOk).ok =
        (tcpOk && handshakeOk) := by
  refine ⟨?_, ?_, ?_⟩
  · intro host port h
    cases hasDeadline <;> cases handshakeOk <;> cases hd : f.debug <;>
      simp [utlsDialTLSContext, h, hd, serverNames]
  · intro h
    cases hasDeadline <;> cases handshakeOk <;> cases hd : f.debug <;>
      simp [utlsDialTLSContext, h, hd, serverNames]
  · intro tcpOk
    cases tcpOk <;> cases handshakeOk <;> simp [utlsDialTLSContext]

/-- C9 at `relay.example.com:443`, which parses, and at `relay.example.com`, which
`net.SplitHostPort` rejects for its missing port. -/
theorem sni_derivation_witness :
    serverNames (utlsDialTLSContext demoFlags netSplit "tcp" "relay.example.com:443"
        true true true).trace = ["relay.example.com"] ∧
      serverNames (utlsDialTLSContext demoFlags netSplit "tcp" "relay.example.com"
        true true true).trace = ["relay.example.com"] :=
  ⟨(sni_derivation demoFlags netSplit "tcp" "relay.example.com:443" true true).1
      "relay.example.com" "443" (by decide),
    (sni_derivation demoFlags netSplit "tcp" "relay.example.com" true true).2.1 (by decide)⟩

/-! ## The buffers of the two loops (C10) -/

theorem PipeState.start_Inv (n : Nat) (fromClient : List (List Byte))
    (fromRelay : List (List (List Byte))) :
    (PipeState.start n fromClient fromRelay).Inv fromClient fromRelay := by
  simp [PipeState.Inv, PipeState.start, PipeState.pendingMessage, PipeState.pendingCopy]

theorem PipeState.step_Inv (fromClient : List (List Byte))
    (fromRelay : List (List (List Byte))) (s : PipeState) (l : Loop)
    (h : s.Inv fromClient fromRelay) : (s.step l).Inv fromClient fromRelay := by
  obtain ⟨h1, h2, h3⟩ := h
  cases l with
  | rawToTunnel =>
    simp only [PipeState.step]
    cases hr : s.readN with
    | some n =>
      refine ⟨?_, ?_, ?_⟩
      · simpa [PipeState.pendingMessage, hr] using h1
      · simpa [PipeState.pendingCopy] using h2
      · intro a ha
        simp only [List.mem_append, List.mem_singleton] at ha
        rcases ha with ha | ha
        · exact h3 a ha
        · subst ha; decide
    | none =>
      cases hi : s.rawIn with
      | nil => exact ⟨h1, h2, h3⟩
      | cons d ds =>
        refine ⟨?_, ?_, ?_⟩
        · by_cases hd : d = []
          · simpa [PipeState.pendingMessage, hr, hi, hd, List.filter_cons] using h1
          · have hpos : 0 < d.length := List.length_pos.mpr hd
            simpa [PipeState.pendingMessage, hr, hi, hd, hpos, List.filter_cons, readInto]
              using h1
        · simpa [PipeState.pendingCopy] using h2
        · intro a ha
          simp only [List.mem_append, List.mem_cons, List.mem_singleton] at ha
          rcases ha with ha | ha | ha | ha
          · exact h3 a ha
          · subst ha; decide
          · subst ha; decide
          · simp at ha
  | tunnelToRaw =>
    simp only [PipeState.step]
    cases hc : s.copyN with
    | some nr =>
      refine ⟨?_, ?_, ?_⟩
      · simpa [PipeState.pendingMessage] using h1
      · simpa [PipeState.pendingCopy, hc] using h2
      · intro a ha
        simp only [List.mem_append, List.mem_singleton] at ha
        rcases ha with ha | ha
        · exact h3 a ha
        · subst ha; decide
    | none =>
      cases hg : s.copying with
      | some cs =>
        cases cs with
        | nil =>
          refine ⟨?_, ?_, h3⟩
          · simpa [PipeState.pendingMessage] using h1
          · simpa [PipeState.pendingCopy, hc, hg] using h2
        | cons c cs =>
          refine ⟨?_, ?_, ?_⟩
          · simpa [PipeState.pendingMessage] using h1
          · by_cases hd : c = []
            · simpa [PipeState.pendingCopy, hc, hg, hd] using h2
            · have hpos : 0 < c.length := List.length_pos.mpr hd
              simpa [PipeState.pendingCopy, hc, hg, hpos, readInto] using h2
          · intro a ha
            simp only [List.mem_append, List.mem_singleton] at ha
            rcases ha with ha | ha
            · exact h3 a ha
            · subst ha; decide
      | none =>
        cases hw : s.wsIn with
        | nil => exact ⟨h1, h2, h3⟩
        | cons m ms =>
          refine ⟨?_, ?_, ?_⟩
          · simpa [PipeState.pendingMessage] using h1
          · simpa [PipeState.pendingCopy, hc, hg, hw] using h2
          · intro a ha
            simp only [List.mem_append, List.mem_singleton] at ha
            rcases ha with ha | ha
            · exact h3 a ha
            · subst ha; decide

theorem PipeState.run_Inv (fromClient : List (List Byte))
    (fromRelay : List (List (List Byte))) (schedule : List Loop) :
    ∀ s : PipeState, s.Inv fromClient fromRelay → (s.run schedule).Inv fromClient fromRelay := by
  induction schedule with
  | nil => intro s h; exact h
  | cons l ls ih => intro s h; exact ih _ (PipeState.step_Inv fromClient fromRelay s l h)
/-- A schedule that lets both loops finish: the tunnel carries `PI` and the raw connection
receives `AB`. -/
theorem PipeState.run_example :
    ((PipeState.start 1024 [[80, 73]] [[[65, 66]]]).run
        [Loop.tunnelToRaw, Loop.rawToTunnel, Loop.tunnelToRaw, Loop.rawToTunnel,
          Loop.tunnelToRaw]).wsOut = [[80, 73]] ∧
      ((PipeState.start 1024 [[80, 73]] [[[65, 66]]]).run
        [Loop.tunnelToRaw, Loop.rawToTunnel, Loop.tunnelToRaw, Loop.rawToTunnel,
          Loop.tunnelToRaw]).rawOut = [65, 66] := by
  decide

/-- C10, as stated, fails: the buffer the raw-to-tunnel loop reads into is the buffer handed
to the tunnel-to-raw copy.  After the goroutine has called `io.CopyBuffer(conn, r, buf)` and
the other loop has called `conn.Read(buf)`, the slice `buf` of line 40 has been handed to
both calls and written by the raw-to-tunnel loop. -/
theorem PipeConn_copy_handed_read_buffer :
    Access.handed Loop.tunnelToRaw Storage.buf ∈
        ((PipeState.start 1024 [[80, 73]] [[[65, 66]]]).run
          [Loop.tunnelToRaw, Loop.rawToTunnel]).log ∧
      Access.handed Loop.rawToTunnel Storage.buf ∈
        ((PipeState.start 1024 [[80, 73]] [[[65, 66]]]).run
          [Loop.tunnelToRaw, Loop.rawToTunnel]).log ∧
      Access.store Loop.rawToTunnel Storage.buf ∈
        ((PipeState.start 1024 [[80, 73]] [[[65, 66]]]).run
          [Loop.tunnelToRaw, Loop.rawToTunnel]).log := by
  decide

/-- C10, amended: both loops are handed the one buffer of line 40, and under every schedule
only the raw-to-tunnel loop writes into it or reads from it, while the copy onto the raw
connection writes and reads its own staging buffer only: no byte storage is written by one
loop and read by the other.  Accordingly the messages sent on the tunnel are the first
non-empty chunks of the client, and the bytes written to the raw connection are the first
bytes of the relay. -/
theorem PipeConn_buffer_use (n : Nat) (fromClient : List (List Byte))
    (fromRelay : List (List (List Byte))) (schedule : List Loop) :
    (∀ l st, Access.handed l st ∈ ((PipeState.start n fromClient fromRelay).run schedule).log →
        st = Storage.buf) ∧
      (∀ l st, Access.store l st ∈ ((PipeState.start n fromClient fromRelay).run schedule).log →
        (st = Storage.buf ↔ l = Loop.rawToTunnel)) ∧
      (∀ l st, Access.load l st ∈ ((PipeState.start n fromClient fromRelay).run schedule).log →
        (st = Storage.buf ↔ l = Loop.rawToTunnel)) ∧
      (∃ rest, ((PipeState.start n fromClient fromRelay).run schedule).wsOut ++ rest =
        fromClient.filter (fun d => d ≠ [])) ∧
      ∃ rest, ((PipeState.start n fromClient fromRelay).run schedule).rawOut ++ rest =
        fromRelay.flatten.flatten := by
  obtain ⟨h1, h2, h3⟩ := PipeState.run_Inv fromClient fromRelay schedule _
    (PipeState.start_Inv n fromClient fromRelay)
  refine ⟨?_, ?_, ?_, ⟨_, h1⟩, ⟨_, h2⟩⟩
  · intro l st h
    simpa [Access.apart] using h3 _ h
  · intro l st h
    simpa [Access.apart] using h3 _ h
  · intro l st h
    simpa [Access.apart] using h3 _ h

end WsProxy
